import Mathlib

/-!
Verification development for the ReactFrame Pro timeline editor.

The definitions below are a shallow embedding of the timeline editing core:
the project state record, element placement with automatic free-track search,
split at playhead, split-audio-from-video, track insertion and deletion with
renumbering, the playback tick, snapping, and the timeline resize gestures.
Times are modelled as rationals, element ids as naturals, and the per-type
default tables are copied from the source switch statement.
-/

namespace ReactFrame

inductive ElementType
  | VIDEO
  | Audio
  | TEXT
  | SHAPE
  | IMAGE
  | AI_GENERATED
  | ADJUSTMENT
deriving DecidableEq, Repr

inductive TrackType
  | video
  | audio
  | overlay
deriving DecidableEq, Repr

/-- Modelled fields of the ElementProps bag (the fields the verified
operations read or write). Absent fields are none, matching optional
object keys. -/
structure ElementProps where
  text : Option String := none
  color : Option String := none
  backgroundColor : Option String := none
  fontSize : Option ℚ := none
  borderRadius : Option ℚ := none
  opacity : Option ℚ := none
  src : Option String := none
  volume : Option ℚ := none
  isMuted : Option Bool := none
  brightness : Option ℚ := none
  contrast : Option ℚ := none
  saturation : Option ℚ := none
deriving DecidableEq, Repr

structure EditorElement where
  id : ℕ
  type : ElementType
  trackId : ℕ
  name : String
  startTime : ℚ
  duration : ℚ
  mediaOffset : ℚ
  x : ℚ
  y : ℚ
  width : ℚ
  height : ℚ
  rotation : ℚ
  zIndex : ℕ
  props : ElementProps
  assetId : Option String := none
deriving DecidableEq, Repr

structure Track where
  id : ℕ
  name : String
  isVisible : Bool
  isLocked : Bool
  type : TrackType
deriving DecidableEq, Repr

structure ProjectState where
  currentTime : ℚ
  duration : ℚ
  isPlaying : Bool
  elements : List EditorElement
  tracks : List Track
  selectedElementId : Option ℕ
deriving DecidableEq, Repr

/-- The optional name, src and assetId payload handed to handleAddElement. -/
structure CustomProps where
  name : Option String := none
  src : Option String := none
  assetId : Option String := none
deriving DecidableEq, Repr

/-- Per-type defaults produced by the switch statement in handleAddElement. -/
structure AddDefaults where
  name : String
  props : ElementProps
  width : ℚ
  height : ℚ
  duration : ℚ
deriving DecidableEq, Repr

def addDefaults (t : ElementType) (isDarkMode : Bool) (custom : CustomProps) : AddDefaults :=
  match t with
  | .TEXT =>
      { name := "Text Layer"
        props := { text := some "Double Click Edit"
                   color := some (if isDarkMode then "#ffffff" else "#000000")
                   fontSize := some 24, backgroundColor := some "transparent" }
        width := 20, height := 10, duration := 5 }
  | .SHAPE =>
      { name := "Rectangle"
        props := { backgroundColor := some "#ef4444", borderRadius := some 4, opacity := some 1 }
        width := 20, height := 20, duration := 5 }
  | .AI_GENERATED =>
      { name := custom.name.getD "AI Component"
        props := { src := custom.src }
        width := 30, height := 30, duration := 5 }
  | .VIDEO =>
      { name := custom.name.getD "Video Clip"
        props := { src := custom.src, volume := some 1, isMuted := some false }
        width := 100, height := 100, duration := 10 }
  | .Audio =>
      { name := custom.name.getD "Audio Track"
        props := { src := custom.src, volume := some 1, isMuted := some false }
        width := 20, height := 10, duration := 30 }
  | .IMAGE =>
      { name := custom.name.getD "Image"
        props := { src := custom.src }
        width := 100, height := 100, duration := 5 }
  | .ADJUSTMENT =>
      { name := "Adjustment Layer"
        props := { opacity := some 1, brightness := some 1, contrast := some 1, saturation := some 1 }
        width := 100, height := 100, duration := 10 }

/-- Overlap test used during the free-track search:
el.startTime < endTime and el.startTime + el.duration > startTime. -/
def trackHasOverlap (els : List EditorElement) (tid : ℕ) (s e : ℚ) : Bool :=
  els.any fun el => el.trackId == tid && decide (el.startTime < e) && decide (el.startTime + el.duration > s)

/-- Tracks are sorted ascending by id before the sequential search. -/
def sortTracksById (ts : List Track) : List Track :=
  ts.insertionSort fun a b => a.id ≤ b.id

/-- Sequential search for the first track without an overlap, in list order. -/
def findFreeTrack (els : List EditorElement) (s e : ℚ) : List Track → Option ℕ
  | [] => none
  | tr :: rest => if trackHasOverlap els tr.id s e then findFreeTrack els s e rest else some tr.id

/-- Id for a synthesized track: current maximum id plus one (zero when no tracks). -/
def newTrackIdOf (ts : List Track) : ℕ :=
  if ts.isEmpty then 0 else (ts.map Track.id).foldl Nat.max 0 + 1

def mkTrack (i : ℕ) (nm : String) (ty : TrackType) : Track :=
  { id := i, name := nm, isVisible := true, isLocked := false, type := ty }

/-- handleAddElement: per-type defaults, then the smart track logic
(explicit track, else first free track in ascending id order, else a new
appended track), then append the new element and select it. -/
def handleAddElement (p : ProjectState) (t : ElementType) (isDarkMode : Bool)
    (custom : CustomProps) (overrideTrackId : Option ℕ) (overrideStartTime : Option ℚ)
    (freshId : ℕ) : ProjectState :=
  let d := addDefaults t isDarkMode custom
  let startTime := overrideStartTime.getD p.currentTime
  let choice : ℕ × List Track :=
    match overrideTrackId with
    | some tid => (tid, p.tracks)
    | none =>
        match findFreeTrack p.elements startTime (startTime + d.duration) (sortTracksById p.tracks) with
        | some tid => (tid, p.tracks)
        | none =>
            let nid := newTrackIdOf p.tracks
            (nid, p.tracks ++ [mkTrack nid ("Layer " ++ toString (nid + 1)) .overlay])
  let newElement : EditorElement :=
    { id := freshId, type := t, trackId := choice.1, name := d.name
      startTime := startTime, duration := d.duration, mediaOffset := 0
      x := if t = .VIDEO ∨ t = .IMAGE then 0 else 50 - d.width / 2
      y := if t = .VIDEO ∨ t = .IMAGE then 0 else 50 - d.height / 2
      width := d.width, height := d.height, rotation := 0
      zIndex := p.elements.length, props := d.props, assetId := custom.assetId }
  { p with tracks := choice.2, elements := p.elements ++ [newElement],
           selectedElementId := some freshId }

/-- A Partial update record: every field optional, present fields replace. -/
structure ElementUpdate where
  id : Option ℕ := none
  type : Option ElementType := none
  trackId : Option ℕ := none
  name : Option String := none
  startTime : Option ℚ := none
  duration : Option ℚ := none
  mediaOffset : Option ℚ := none
  x : Option ℚ := none
  y : Option ℚ := none
  width : Option ℚ := none
  height : Option ℚ := none
  rotation : Option ℚ := none
  zIndex : Option ℕ := none
  props : Option ElementProps := none
  assetId : Option (Option String) := none
deriving DecidableEq, Repr

/-- Object spread of a Partial update over an element: top-level shallow merge;
a props value present in the update replaces the props object wholesale. -/
def applyUpdate (el : EditorElement) (u : ElementUpdate) : EditorElement :=
  { id := u.id.getD el.id
    type := u.type.getD el.type
    trackId := u.trackId.getD el.trackId
    name := u.name.getD el.name
    startTime := u.startTime.getD el.startTime
    duration := u.duration.getD el.duration
    mediaOffset := u.mediaOffset.getD el.mediaOffset
    x := u.x.getD el.x
    y := u.y.getD el.y
    width := u.width.getD el.width
    height := u.height.getD el.height
    rotation := u.rotation.getD el.rotation
    zIndex := u.zIndex.getD el.zIndex
    props := u.props.getD el.props
    assetId := u.assetId.getD el.assetId }

def handleUpdateElement (p : ProjectState) (i : ℕ) (u : ElementUpdate) : ProjectState :=
  { p with elements := p.elements.map fun el => if el.id = i then applyUpdate el u else el }

def handleDeleteElement (p : ProjectState) (i : ℕ) : ProjectState :=
  { p with elements := p.elements.filter fun el => el.id != i, selectedElementId := none }

def handleSelectElement (p : ProjectState) (i : Option ℕ) : ProjectState :=
  { p with selectedElementId := i }

def handleSeek (p : ProjectState) (t : ℚ) : ProjectState :=
  { p with currentTime := t }

/-- handleUpdateDuration takes the maximum of the requested and current duration. -/
def handleUpdateDuration (p : ProjectState) (d : ℚ) : ProjectState :=
  { p with duration := max d p.duration }

/-- One iteration of the playback scheduler: while playing, pause and reset
when currentTime has already reached duration, otherwise advance by the
wall-clock delta. -/
def tick (p : ProjectState) (delta : ℚ) : ProjectState :=
  if p.isPlaying then
    if p.duration ≤ p.currentTime then
      { p with isPlaying := false, currentTime := 0 }
    else
      { p with currentTime := p.currentTime + delta }
  else p

/-- Left piece of a split at time T: keeps everything, duration becomes the
relative split point. -/
def splitLeft (T : ℚ) (el : EditorElement) : EditorElement :=
  { el with duration := T - el.startTime }

/-- Right piece of a split at time T: fresh id, startTime T, the remaining
duration, shifted mediaOffset, and a Copy name suffix. -/
def splitRight (T : ℚ) (nid : ℕ) (el : EditorElement) : EditorElement :=
  { el with id := nid, startTime := T, duration := el.duration - (T - el.startTime),
            mediaOffset := el.mediaOffset + (T - el.startTime),
            name := el.name ++ " (Copy)" }

/-- An element straddles time T when startTime < T < startTime + duration. -/
def straddles (T : ℚ) (el : EditorElement) : Bool :=
  decide (el.startTime < T) && decide (T < el.startTime + el.duration)

/-- An element is split when it straddles T and, if a selection exists, is
the selected element. -/
def splitEligible (T : ℚ) (sel : Option ℕ) (el : EditorElement) : Bool :=
  straddles T el && (match sel with | none => true | some s => el.id == s)

/-- Replace the first element with the given id, leaving the list unchanged
when the id is absent (mirrors findIndex followed by an index assignment). -/
def setFirstById (i : ℕ) (repl : EditorElement) : List EditorElement → List EditorElement
  | [] => []
  | el :: rest => if el.id = i then repl :: rest else el :: setFirstById i repl rest

/-- One forEach iteration of handleSplit: on an eligible element, overwrite
its slot with the left piece and push the right piece at the end. The
accumulator carries the working array, the modified flag, and how many
fresh ids have been consumed. -/
def splitStep (T : ℚ) (sel : Option ℕ) (gen : ℕ → ℕ)
    (acc : List EditorElement × Bool × ℕ) (el : EditorElement) :
    List EditorElement × Bool × ℕ :=
  if splitEligible T sel el then
    (setFirstById el.id (splitLeft T el) acc.1 ++ [splitRight T (gen acc.2.2) el], true, acc.2.2 + 1)
  else acc

/-- handleSplit at the current playhead time; gen supplies the fresh ids in
the order the random generator would. -/
def handleSplit (p : ProjectState) (gen : ℕ → ℕ) : ProjectState :=
  let T := p.currentTime
  let r := p.elements.foldl (splitStep T p.selectedElementId gen) (p.elements, false, 0)
  if r.2.1 then { p with elements := r.1, selectedElementId := none } else p

/-- Splice insertion used by handleSplitAudio: insert before the first
track satisfying the predicate, or push at the end when none does. -/
def insertBeforeFirst (pred : Track → Bool) (x : Track) : List Track → List Track
  | [] => [x]
  | t :: ts => if pred t then x :: t :: ts else t :: insertBeforeFirst pred x ts

/-- handleSplitAudio: insert a new audio track right after the track of the
given video element, shift higher tracks and their elements up by one,
append an audio element cloned from the video timing, mute the video, and
select the new audio element. A missing or non-video element is a no-op. -/
def handleSplitAudio (p : ProjectState) (videoElementId : ℕ) (freshId : ℕ) : ProjectState :=
  match p.elements.find? (fun el => el.id == videoElementId) with
  | none => p
  | some videoElement =>
      if videoElement.type ≠ ElementType.VIDEO then p
      else
        let vt := videoElement.trackId
        let updatedTracks := p.tracks.map fun tr =>
          if vt < tr.id then { tr with id := tr.id + 1 } else tr
        let updatedElements := p.elements.map fun el =>
          if vt < el.trackId then { el with trackId := el.trackId + 1 } else el
        let newAudioTrack := mkTrack (vt + 1) ("Layer " ++ toString (p.tracks.length + 1)) .audio
        let tracksWithNew := insertBeforeFirst (fun t => decide (vt < t.id)) newAudioTrack updatedTracks
        let audioElement : EditorElement :=
          { id := freshId, type := .Audio, trackId := vt + 1
            name := videoElement.name ++ " (Audio)"
            startTime := videoElement.startTime, duration := videoElement.duration
            mediaOffset := videoElement.mediaOffset
            x := 0, y := 0, width := 0, height := 0, rotation := 0
            zIndex := updatedElements.length
            props := { src := videoElement.props.src
                       volume := some (videoElement.props.volume.getD 1)
                       isMuted := some false }
            assetId := videoElement.assetId }
        let finalElements :=
          (updatedElements.map fun el =>
            if el.id = videoElementId then { el with props := { el.props with isMuted := some true } } else el)
          ++ [audioElement]
        { p with tracks := sortTracksById tracksWithNew, elements := finalElements,
                 selectedElementId := some freshId }

/-- handleInsertTrack: shift tracks and elements past the anchor up by one,
then add the new track and re-sort by id. -/
def handleInsertTrack (p : ProjectState) (afterTrackId : ℕ) : ProjectState :=
  let updatedTracks := p.tracks.map fun tr =>
    if afterTrackId < tr.id then { tr with id := tr.id + 1 } else tr
  let updatedElements := p.elements.map fun el =>
    if afterTrackId < el.trackId then { el with trackId := el.trackId + 1 } else el
  let newTrack := mkTrack (afterTrackId + 1) ("Layer " ++ toString (p.tracks.length + 1)) .overlay
  { p with tracks := sortTracksById (updatedTracks ++ [newTrack]), elements := updatedElements }

/-- Lookup in the old-id to new-id map built by iterating the sorted
remaining tracks with idMapping.set(track.id, index + 1): a later entry
overwrites an earlier one, so the rear-most occurrence wins. idx is the new
id the head of the remaining list would receive. -/
def mapIdLookupAux (idx : ℕ) (old : ℕ) : List Track → Option ℕ
  | [] => none
  | t :: ts =>
      match mapIdLookupAux (idx + 1) old ts with
      | some r => some r
      | none => if t.id = old then some idx else none

def mapIdLookup (sorted : List Track) (old : ℕ) : Option ℕ :=
  mapIdLookupAux 1 old sorted

/-- handleDeleteTrack: refuse when at most one track remains; otherwise drop
the track and its elements, renumber the remaining tracks to 1..N in old id
order with positional names, remap element trackIds through the old-to-new
map, and clear the selection. -/
def handleDeleteTrack (p : ProjectState) (trackId : ℕ) : ProjectState :=
  if p.tracks.length ≤ 1 then p
  else
    let remainingElements := p.elements.filter fun el => el.trackId != trackId
    let remainingTracks := sortTracksById (p.tracks.filter fun t => t.id != trackId)
    let updatedTracks := remainingTracks.enum.map fun q =>
      { q.2 with id := q.1 + 1, name := "Layer " ++ toString (q.1 + 1) }
    let updatedElements := remainingElements.map fun el =>
      { el with trackId := (mapIdLookup remainingTracks el.trackId).getD el.trackId }
    { p with tracks := updatedTracks, elements := updatedElements, selectedElementId := none }

/-- Snap points for a track: always time zero, then the start and end edge
of every element on the track other than the dragged one. -/
def findSnapPoints (els : List EditorElement) (trackId : ℕ) (excludeElementId : ℕ) : List ℚ :=
  0 :: (els.filter fun el => el.trackId == trackId && el.id != excludeElementId).flatMap
    (fun el => [el.startTime, el.startTime + el.duration])

structure SnapResult where
  snapped : ℚ
  didSnap : Bool
deriving DecidableEq, Repr

/-- One loop iteration of the nearest-point scan. The accumulator pairs the
nearest point so far with the minimal distance so far (none meaning
infinity); a point replaces it only on a strict improvement within the
threshold. -/
def snapStep (time thr : ℚ) (acc : ℚ × Option ℚ) (point : ℚ) : ℚ × Option ℚ :=
  let d := |time - point|
  if (match acc.2 with | none => true | some m => decide (d < m)) && decide (d < thr) then
    (point, some d)
  else acc

/-- snapToNearestPoint: shift disables snapping; the threshold is the fixed
10 pixel threshold divided by the zoom. -/
def snapToNearestPoint (pixelsPerSecond : ℚ) (time : ℚ) (snapPoints : List ℚ)
    (shiftPressed : Bool) : SnapResult :=
  if shiftPressed then { snapped := time, didSnap := false }
  else
    let thr := 10 / pixelsPerSecond
    let r := snapPoints.foldl (snapStep time thr) (time, none)
    { snapped := r.1, didSnap := match r.2 with | none => false | some m => decide (m < thr) }

/-- Drag state captured on mouse down for a resize gesture. -/
structure DragState where
  elementId : ℕ
  originalStartTime : ℚ
  originalDuration : ℚ
  originalMediaOffset : ℚ
  originalTrackId : ℕ
deriving DecidableEq, Repr

/-- Right edge resize: snap the new end instant, then commit a duration of
at least one half second. -/
def resizeRightDuration (pps : ℚ) (els : List EditorElement) (ds : DragState)
    (deltaTime : ℚ) (shift : Bool) : ℚ :=
  let newEndTime := ds.originalStartTime + ds.originalDuration + deltaTime
  let pts := findSnapPoints els ds.originalTrackId ds.elementId
  let snap := snapToNearestPoint pps newEndTime pts shift
  let e := if snap.didSnap then snap.snapped else newEndTime
  max (1/2) (e - ds.originalStartTime)

/-- Effective delta of a left edge resize: the snapped, zero-clamped new
start time minus the original start time. -/
def resizeLeftEffectiveDelta (pps : ℚ) (els : List EditorElement) (ds : DragState)
    (deltaTime : ℚ) (shift : Bool) : ℚ :=
  let n0 := ds.originalStartTime + deltaTime
  let pts := findSnapPoints els ds.originalTrackId ds.elementId
  let snap := snapToNearestPoint pps n0 pts shift
  let n1 := if snap.didSnap then snap.snapped else n0
  let n2 := if n1 < 0 then 0 else n1
  n2 - ds.originalStartTime

/-- Left edge resize commit: startTime, duration and mediaOffset. When the
half-second minimum binds, the start time stops at the position keeping the
end fixed, while the media offset still uses the effective delta. -/
def resizeLeftCommit (pps : ℚ) (els : List EditorElement) (ds : DragState)
    (deltaTime : ℚ) (shift : Bool) : ℚ × ℚ × ℚ :=
  let eff := resizeLeftEffectiveDelta pps els ds deltaTime shift
  let newDuration := max (1/2) (ds.originalDuration - eff)
  let newStartTime :=
    if newDuration = 1/2 then ds.originalStartTime + (ds.originalDuration - 1/2)
    else ds.originalStartTime + eff
  (newStartTime, newDuration, ds.originalMediaOffset + eff)

/-- Props change as issued by the properties panel: the existing props are
spread into the update with a single field overridden, then handed to
handleUpdateElement as a wholesale props value. Here for the volume field. -/
def handleChangeVolume (p : ProjectState) (el : EditorElement) (v : ℚ) : ProjectState :=
  handleUpdateElement p el.id { props := some { el.props with volume := some v } }

/-! ### Concrete states for scenarios, counterexamples and witnesses -/

/-- A plain video element occupying track 0 on the interval from 0 to 10. -/
def baseElement : EditorElement :=
  { id := 0, type := .VIDEO, trackId := 0, name := "A", startTime := 0, duration := 10,
    mediaOffset := 0, x := 0, y := 0, width := 100, height := 100, rotation := 0,
    zIndex := 0, props := {} }

def emptyProject : ProjectState :=
  { currentTime := 0, duration := 30, isPlaying := false, elements := [],
    tracks := [mkTrack 0 "Layer 1" .overlay], selectedElementId := none }

/-- The project after auto-adding an audio element at playhead 5. -/
def C4added : ProjectState :=
  handleAddElement { emptyProject with currentTime := 5 } .Audio true {} none none 9

def singleTrackProject : ProjectState :=
  { emptyProject with elements := [baseElement] }

def playFromNearEnd : ProjectState :=
  { emptyProject with isPlaying := true, currentTime := 99/100, duration := 1 }

def playProjectW : ProjectState :=
  { emptyProject with isPlaying := true, currentTime := 99, duration := 100 }

def C6element : EditorElement :=
  { baseElement with
    id := 1,
    props := { src := some "s", volume := some 1, isMuted := some false } }

def C6project : ProjectState := { emptyProject with elements := [C6element] }

/-- A Partial update naming only the volume inside props. -/
def C6update : ElementUpdate := { props := some { volume := some 2 } }

def C10drag : DragState :=
  { elementId := 1, originalStartTime := 0, originalDuration := 2,
    originalMediaOffset := 0, originalTrackId := 0 }

def C10dragW : DragState :=
  { elementId := 1, originalStartTime := 0, originalDuration := 2,
    originalMediaOffset := 0, originalTrackId := 5 }

/-- One automatic placement request: the element type, the theme flag that
feeds the text default color, the optional custom payload, and the id the
random generator would produce. -/
structure PlacementReq where
  type : ElementType
  isDarkMode : Bool := true
  custom : CustomProps := {}
  freshId : ℕ
deriving DecidableEq, Repr

/-- An automatic placement: handleAddElement with no explicit track and no
explicit start time. -/
def autoAdd (p : ProjectState) (r : PlacementReq) : ProjectState :=
  handleAddElement p r.type r.isDarkMode r.custom none none r.freshId

/-- The element an automatic placement appends when the chosen track id is
tid: defaults from the per-type table, playhead start, zIndex equal to the
current element count. -/
def autoNewElement (p : ProjectState) (r : PlacementReq) (tid : ℕ) : EditorElement :=
  { id := r.freshId, type := r.type, trackId := tid
    name := (addDefaults r.type r.isDarkMode r.custom).name
    startTime := p.currentTime
    duration := (addDefaults r.type r.isDarkMode r.custom).duration
    mediaOffset := 0
    x := if r.type = .VIDEO ∨ r.type = .IMAGE then 0
         else 50 - (addDefaults r.type r.isDarkMode r.custom).width / 2
    y := if r.type = .VIDEO ∨ r.type = .IMAGE then 0
         else 50 - (addDefaults r.type r.isDarkMode r.custom).height / 2
    width := (addDefaults r.type r.isDarkMode r.custom).width
    height := (addDefaults r.type r.isDarkMode r.custom).height
    rotation := 0, zIndex := p.elements.length
    props := (addDefaults r.type r.isDarkMode r.custom).props
    assetId := r.custom.assetId }

/-- The candidate end instant of an automatic placement: playhead plus the
per-type default duration. -/
def autoPlaceWindowEnd (p : ProjectState) (r : PlacementReq) : ℚ :=
  p.currentTime + (addDefaults r.type r.isDarkMode r.custom).duration

/-- Two elements overlap when they share a track and their half-open
intervals intersect. -/
def elementsOverlap (a b : EditorElement) : Prop :=
  a.trackId = b.trackId ∧ a.startTime < b.startTime + b.duration ∧
    b.startTime < a.startTime + a.duration

/-- No two elements of the project overlap. -/
def NoOverlap (p : ProjectState) : Prop :=
  p.elements.Pairwise fun a b => ¬ elementsOverlap a b

/-- Every element references an existing track. -/
def TracksWF (p : ProjectState) : Prop :=
  ∀ el ∈ p.elements, el.trackId ∈ p.tracks.map Track.id

/-- The auto-placement scenario: five tracks with ids 0 to 4 and track 0
occupied on 0 to 10. -/
def C1state : ProjectState :=
  { emptyProject with
    elements := [baseElement],
    tracks := [mkTrack 0 "Layer 1" .overlay, mkTrack 1 "Layer 2" .overlay,
               mkTrack 2 "Layer 3" .overlay, mkTrack 3 "Layer 4" .overlay,
               mkTrack 4 "Layer 5" .overlay] }

/-- The scenario request: a five-second text element at playhead 0. -/
def C1req : PlacementReq := { type := .TEXT, isDarkMode := true, custom := {}, freshId := 7 }

/-- The split scenario: playhead at 4 with one element spanning 0 to 10. -/
def C2state : ProjectState :=
  { emptyProject with currentTime := 4, elements := [baseElement] }

/-- A deterministic stand-in for the random id generator. -/
def C2gen : ℕ → ℕ := fun k => 100 + k

instance instIsTotalTrackIdLe : IsTotal Track (fun a b => a.id ≤ b.id) :=
  ⟨fun a b => Nat.le_total a.id b.id⟩

instance instIsTransTrackIdLe : IsTrans Track (fun a b => a.id ≤ b.id) :=
  ⟨fun _ _ _ => Nat.le_trans⟩

/-- The split-audio scenario video: id 50 on track 2, interval 3 to 13,
volume 0.8. -/
def C7video : EditorElement :=
  { baseElement with
    id := 50, trackId := 2, startTime := 3, duration := 10,
    props := { src := some "v", volume := some (4/5), isMuted := some false } }

/-- An element of C3state: a copy of the base element with given id and
track. -/
def C3element (i tid : ℕ) : EditorElement := { baseElement with id := i, trackId := tid }

/-- The delete-track scenario: a four-track project, elements A and B on
track 2 and element C on track 3. -/
def C3state : ProjectState :=
  { emptyProject with
    elements := [C3element 1 2, C3element 2 2, C3element 3 3],
    tracks := [mkTrack 1 "Layer 1" .overlay, mkTrack 2 "Layer 2" .overlay,
               mkTrack 3 "Layer 3" .overlay, mkTrack 4 "Layer 4" .overlay] }

/-- The split-audio scenario: a four-track project with the video of
C7video on track 2 and another element on track 3. -/
def C7state : ProjectState :=
  { emptyProject with
    elements := [C7video, C3element 3 3],
    tracks := [mkTrack 1 "Layer 1" .overlay, mkTrack 2 "Layer 2" .overlay,
               mkTrack 3 "Layer 3" .overlay, mkTrack 4 "Layer 4" .overlay] }

end ReactFrame

namespace ReactFrame

/-! ### Theorems -/

/-- C4 counterexample: the claimed invariant totalDuration at least the
maximum element end does not hold after every operation. Auto-adding an
audio element (default duration 30) at playhead 5 in a project whose
duration is 30 produces an element ending at 35 while the project duration
stays 30. -/
theorem C4_counterexample :
    ∃ el ∈ C4added.elements, C4added.duration < el.startTime + el.duration := by
  refine ⟨{ id := 9, type := .Audio, trackId := 0, name := "Audio Track", startTime := 5,
            duration := 30, mediaOffset := 0, x := 40, y := 45, width := 20, height := 10,
            rotation := 0, zIndex := 0,
            props := { src := none, volume := some 1, isMuted := some false },
            assetId := none }, ?_, ?_⟩
  · norm_num [C4added, handleAddElement, addDefaults, findFreeTrack, trackHasOverlap,
      sortTracksById, List.insertionSort, List.orderedInsert, emptyProject, mkTrack]
    all_goals decide
  · norm_num [C4added, handleAddElement, emptyProject]

/-- C4 amended: totalDuration never decreases under any modeled element or
track mutation, and handleUpdateDuration only raises it by taking a maximum;
the lower-bound invariant against element ends is however not re-established
by element mutations. -/
theorem C4_amended_duration_monotone :
    (∀ (p : ProjectState) (t : ElementType) (dm : Bool) (c : CustomProps)
        (ot : Option ℕ) (os : Option ℚ) (f : ℕ),
        p.duration ≤ (handleAddElement p t dm c ot os f).duration) ∧
    (∀ (p : ProjectState) (i : ℕ) (u : ElementUpdate),
        p.duration ≤ (handleUpdateElement p i u).duration) ∧
    (∀ (p : ProjectState) (i : ℕ), p.duration ≤ (handleDeleteElement p i).duration) ∧
    (∀ (p : ProjectState) (g : ℕ → ℕ), p.duration ≤ (handleSplit p g).duration) ∧
    (∀ (p : ProjectState) (v f : ℕ), p.duration ≤ (handleSplitAudio p v f).duration) ∧
    (∀ (p : ProjectState) (a : ℕ), p.duration ≤ (handleInsertTrack p a).duration) ∧
    (∀ (p : ProjectState) (tid : ℕ), p.duration ≤ (handleDeleteTrack p tid).duration) ∧
    (∀ (p : ProjectState) (d : ℚ), p.duration ≤ (handleUpdateDuration p d).duration) ∧
    (∀ (p : ProjectState) (d : ℚ), p.duration ≤ (tick p d).duration) ∧
    (∀ (p : ProjectState) (t : ℚ), p.duration ≤ (handleSeek p t).duration) := by
  refine ⟨fun p t dm c ot os f => le_refl _, fun p i u => le_refl _, fun p i => le_refl _,
    ?_, ?_, fun p a => le_refl _, ?_, ?_, ?_, fun p t => le_refl _⟩
  · intro p g
    simp only [handleSplit]
    split <;> simp
  · intro p v f
    unfold handleSplitAudio
    split
    · simp
    · split <;> simp
  · intro p tid
    unfold handleDeleteTrack
    split <;> simp
  · intro p d
    unfold handleUpdateDuration
    simp [le_max_right]
  · intro p d
    unfold tick
    split
    · split <;> simp
    · simp

/-- C5 counterexample: from isPlaying true and currentTime equal to
duration minus 0.01, one tick whose delta exceeds 0.01 does not pause and
reset; the state keeps playing with currentTime past the duration. -/
theorem C5_counterexample :
    ¬ ((tick playFromNearEnd (2/100)).isPlaying = false ∧
       (tick playFromNearEnd (2/100)).currentTime = 0) := by
  norm_num [tick, playFromNearEnd, emptyProject]

/-- C5 amended: the scheduler checks the end condition at the start of the
tick. A tick from currentTime below duration advances past the end while
still playing; a tick from currentTime at or past duration pauses and
resets to zero; hence from near the end it is the second tick that lands in
the paused state with currentTime zero. -/
theorem C5_amended (p : ProjectState) (d1 d2 : ℚ) (hp : p.isPlaying = true) :
    (p.currentTime < p.duration →
       tick p d1 = { p with currentTime := p.currentTime + d1 }) ∧
    (p.duration ≤ p.currentTime →
       tick p d1 = { p with isPlaying := false, currentTime := 0 }) ∧
    (p.currentTime < p.duration → p.duration ≤ p.currentTime + d1 →
       tick (tick p d1) d2 = { p with isPlaying := false, currentTime := 0 }) := by
  refine ⟨?_, ?_, ?_⟩
  · intro h
    simp [tick, hp, not_le.mpr h]
  · intro h
    simp [tick, hp, h]
  · intro h1 h2
    have e1 : tick p d1 = { p with currentTime := p.currentTime + d1 } := by
      simp [tick, hp, not_le.mpr h1]
    rw [e1]
    simp [tick, hp, h2]

/-- C5 amended witness at a concrete near-end state: two ticks from
currentTime 99 of duration 100 with delta 2 pause and reset. -/
theorem C5_amended_witness :
    tick (tick playProjectW 2) 7
      = { playProjectW with isPlaying := false, currentTime := 0 } :=
  (C5_amended playProjectW 2 7 rfl).2.2 (by decide) (by norm_num [playProjectW, emptyProject])

/-- C9: invariant-violating commands are no-ops. Deleting a track when it
is the last one returns the state unchanged, and updating an element id
that matches no element leaves the whole state unchanged. -/
theorem C9_invariant_noop (p : ProjectState) (tid i : ℕ) (u : ElementUpdate)
    (h1 : p.tracks.length = 1) (h2 : ∀ el ∈ p.elements, el.id ≠ i) :
    handleDeleteTrack p tid = p ∧ handleUpdateElement p i u = p := by
  constructor
  · unfold handleDeleteTrack
    rw [if_pos (by omega)]
  · unfold handleUpdateElement
    have hm : p.elements.map (fun el => if el.id = i then applyUpdate el u else el)
        = p.elements := by
      conv_rhs => rw [← List.map_id p.elements]
      exact List.map_congr_left fun el hel => if_neg (h2 el hel)
    rw [hm]

/-- C9 witness: the two no-ops at a one-track project holding one element
of id 0, deleting track 0 and updating the absent id 5. -/
theorem C9_witness :
    handleDeleteTrack singleTrackProject 0 = singleTrackProject ∧
    handleUpdateElement singleTrackProject 5 { name := some "B" } = singleTrackProject :=
  C9_invariant_noop singleTrackProject 0 5 { name := some "B" } rfl (by decide)

/-- C6 counterexample: the props object inside a Partial update replaces
the existing props wholesale in handleUpdateElement, so a props update that
names only the volume loses the existing src field instead of preserving
it. -/
theorem C6_counterexample :
    ∃ el ∈ (handleUpdateElement C6project 1 C6update).elements,
      el.id = 1 ∧ C6element.props.src = some "s" ∧ el.props.src = none := by
  decide

/-- C6 amended: updateElement shallow-merges the given fields into the
matching element, leaves all other elements unchanged, and replaces props
wholesale when the update carries one; the one-level-deep props merge is
performed by the properties panel caller, which spreads the existing props
into the update, so changes routed through it preserve the props fields
not named in the change. -/
theorem C6_amended (p : ProjectState) (i : ℕ) (u : ElementUpdate) (pr : ElementProps)
    (el : EditorElement) (v : ℚ) (hel : el ∈ p.elements) :
    ((handleUpdateElement p i u).elements
        = p.elements.map fun e => if e.id = i then applyUpdate e u else e) ∧
    (u.props = some pr → ∀ e : EditorElement, (applyUpdate e u).props = pr) ∧
    (∀ e ∈ p.elements, e.id ≠ i → e ∈ (handleUpdateElement p i u).elements) ∧
    (∃ e ∈ (handleChangeVolume p el v).elements, e.id = el.id ∧
       e.props.volume = some v ∧ e.props.src = el.props.src ∧
       e.props.isMuted = el.props.isMuted ∧ e.props.text = el.props.text ∧
       e.startTime = el.startTime ∧ e.duration = el.duration ∧ e.trackId = el.trackId) := by
  refine ⟨rfl, ?_, ?_, ?_⟩
  · intro h e
    simp [applyUpdate, h]
  · intro e he hne
    exact List.mem_map.mpr ⟨e, he, by simp [hne]⟩
  · refine ⟨applyUpdate el { props := some { el.props with volume := some v } },
      List.mem_map.mpr ⟨el, hel, by simp⟩, ?_⟩
    simp [applyUpdate]

/-- C6 amended witness at the concrete project: the element with id 1 keeps
src and isMuted when the volume is changed through the panel path. -/
theorem C6_amended_witness :
    ((handleUpdateElement C6project 1 C6update).elements
        = C6project.elements.map fun e => if e.id = 1 then applyUpdate e C6update else e) ∧
    (C6update.props = some { volume := some 2 } →
      ∀ e : EditorElement, (applyUpdate e C6update).props = { volume := some 2 }) ∧
    (∀ e ∈ C6project.elements, e.id ≠ 1 → e ∈ (handleUpdateElement C6project 1 C6update).elements) ∧
    (∃ e ∈ (handleChangeVolume C6project C6element 3).elements, e.id = C6element.id ∧
       e.props.volume = some 3 ∧ e.props.src = C6element.props.src ∧
       e.props.isMuted = C6element.props.isMuted ∧ e.props.text = C6element.props.text ∧
       e.startTime = C6element.startTime ∧ e.duration = C6element.duration ∧
       e.trackId = C6element.trackId) :=
  C6_amended C6project 1 C6update { volume := some 2 } C6element 3 (by decide)

/-- C10 counterexample: a left edge resize whose drag overshoots the
half-second minimum shifts mediaOffset by the pre-clamp delta, not by the
committed change in startTime: dragging the left edge of a clip on 0 to 2
right by 3 seconds commits startTime 1.5 but shifts mediaOffset by 3. -/
theorem C10_counterexample :
    (resizeLeftCommit 50 [] C10drag 3 false).2.2 - C10drag.originalMediaOffset
      ≠ (resizeLeftCommit 50 [] C10drag 3 false).1 - C10drag.originalStartTime := by
  norm_num [resizeLeftCommit, resizeLeftEffectiveDelta, snapToNearestPoint, snapStep,
    findSnapPoints, C10drag]

/-- C10 amended: both resize gestures commit a duration of at least half a
second; a left edge resize always preserves the end instant exactly, also
under the minimum-duration clamp; mediaOffset is shifted by the effective
delta (the snapped, zero-clamped new start minus the original start), which
equals the committed change in startTime whenever the minimum-duration
clamp does not bind. -/
theorem C10_amended (pps : ℚ) (els : List EditorElement) (ds : DragState) (dt : ℚ) (sh : Bool) :
    1/2 ≤ resizeRightDuration pps els ds dt sh ∧
    1/2 ≤ (resizeLeftCommit pps els ds dt sh).2.1 ∧
    (resizeLeftCommit pps els ds dt sh).1 + (resizeLeftCommit pps els ds dt sh).2.1
        = ds.originalStartTime + ds.originalDuration ∧
    (resizeLeftCommit pps els ds dt sh).2.2
        = ds.originalMediaOffset + resizeLeftEffectiveDelta pps els ds dt sh ∧
    (1/2 ≤ ds.originalDuration - resizeLeftEffectiveDelta pps els ds dt sh →
      (resizeLeftCommit pps els ds dt sh).1
        = ds.originalStartTime + resizeLeftEffectiveDelta pps els ds dt sh) := by
  refine ⟨le_max_left _ _, le_max_left _ _, ?_, rfl, ?_⟩
  · unfold resizeLeftCommit
    dsimp only
    split
    · ring_nf
      rename_i h
      rw [h]
      ring
    · rename_i h
      rcases max_choice (1/2 : ℚ)
        (ds.originalDuration - resizeLeftEffectiveDelta pps els ds dt sh) with hm | hm
      · exact absurd hm h
      · rw [hm]
        ring
  · intro hge
    unfold resizeLeftCommit
    dsimp only
    split
    · rename_i h
      rw [max_eq_right hge] at h
      rw [← h]
      ring
    · rfl

/-- Unfolding of snapToNearestPoint without shift in terms of the scan. -/
theorem snapToNearestPoint_eq (pps t : ℚ) (pts : List ℚ) :
    snapToNearestPoint pps t pts false =
      { snapped := (pts.foldl (snapStep t (10 / pps)) (t, none)).1,
        didSnap := match (pts.foldl (snapStep t (10 / pps)) (t, none)).2 with
                   | none => false
                   | some m => decide (m < 10 / pps) } := rfl

/-- Invariant of the nearest-point scan. From an accumulator whose some
minimum is the distance of its own point and within the threshold: a some
result is within the threshold at the distance of the resulting point,
which is a scanned point unless the accumulator never moved; a none result
means the accumulator never moved; every scanned point is either at least
the threshold away or at least the final minimum away; and a some
accumulator only ever improves. -/
theorem snapStep_foldl_inv (time thr : ℚ) (pts : List ℚ) :
    ∀ (a : ℚ) (m : Option ℚ),
      (∀ mm, m = some mm → mm = |time - a| ∧ mm < thr) →
      (∀ mm, (pts.foldl (snapStep time thr) (a, m)).2 = some mm →
          mm = |time - (pts.foldl (snapStep time thr) (a, m)).1| ∧ mm < thr ∧
          ((pts.foldl (snapStep time thr) (a, m)).1 ∈ pts ∨
            (a, m) = pts.foldl (snapStep time thr) (a, m))) ∧
      ((pts.foldl (snapStep time thr) (a, m)).2 = none →
          pts.foldl (snapStep time thr) (a, m) = (a, m)) ∧
      (∀ q ∈ pts, thr ≤ |time - q| ∨
          ∃ mm, (pts.foldl (snapStep time thr) (a, m)).2 = some mm ∧ mm ≤ |time - q|) ∧
      (∀ mm0, m = some mm0 →
          ∃ mm, (pts.foldl (snapStep time thr) (a, m)).2 = some mm ∧ mm ≤ mm0) := by
  induction pts with
  | nil =>
      intro a m hm
      refine ⟨?_, fun _ => rfl, ?_, ?_⟩
      · intro mm h
        rcases hm mm h with ⟨h1, h2⟩
        exact ⟨h1, h2, Or.inr rfl⟩
      · intro q hq
        cases hq
      · intro mm0 h
        exact ⟨mm0, h, le_refl _⟩
  | cons q pts ih =>
      intro a m hm
      rw [List.foldl_cons]
      cases m with
      | none =>
          by_cases hthr : |time - q| < thr
          · have hstep : snapStep time thr (a, none) q = (q, some |time - q|) := by
              simp [snapStep, hthr]
            rw [hstep]
            have hm2 : ∀ mm, (some |time - q| : Option ℚ) = some mm →
                mm = |time - q| ∧ mm < thr := by
              intro mm h
              cases h
              exact ⟨rfl, hthr⟩
            obtain ⟨I1, I2, I3, I4⟩ := ih q (some |time - q|) hm2
            refine ⟨?_, ?_, ?_, ?_⟩
            · intro mm h
              rcases I1 mm h with ⟨h1, h2, h3⟩
              refine ⟨h1, h2, ?_⟩
              rcases h3 with h3 | h3
              · exact Or.inl (List.mem_cons_of_mem _ h3)
              · left
                rw [← h3]
                exact List.mem_cons_self _ _
            · intro h
              rcases I4 |time - q| rfl with ⟨mm, hmm, _⟩
              rw [h] at hmm
              cases hmm
            · intro r hr
              rcases List.mem_cons.mp hr with hr | hr
              · subst hr
                rcases I4 |time - r| rfl with ⟨mm, hmm, hle⟩
                exact Or.inr ⟨mm, hmm, hle⟩
              · rcases I3 r hr with h | h
                · exact Or.inl h
                · exact Or.inr h
            · intro mm0 h
              cases h
          · have hstep : snapStep time thr (a, none) q = (a, none) := by
              simp [snapStep, hthr]
            rw [hstep]
            obtain ⟨I1, I2, I3, I4⟩ := ih a none hm
            refine ⟨?_, I2, ?_, I4⟩
            · intro mm h
              rcases I1 mm h with ⟨h1, h2, h3⟩
              refine ⟨h1, h2, ?_⟩
              rcases h3 with h3 | h3
              · exact Or.inl (List.mem_cons_of_mem _ h3)
              · exact Or.inr h3
            · intro r hr
              rcases List.mem_cons.mp hr with hr | hr
              · subst hr
                exact Or.inl (not_lt.mp hthr)
              · rcases I3 r hr with h | h
                · exact Or.inl h
                · exact Or.inr h
      | some mm0 =>
          by_cases him : |time - q| < mm0
          · by_cases hthr : |time - q| < thr
            · have hstep : snapStep time thr (a, some mm0) q = (q, some |time - q|) := by
                simp [snapStep, him, hthr]
              rw [hstep]
              have hm2 : ∀ mm, (some |time - q| : Option ℚ) = some mm →
                  mm = |time - q| ∧ mm < thr := by
                intro mm h
                cases h
                exact ⟨rfl, hthr⟩
              obtain ⟨I1, I2, I3, I4⟩ := ih q (some |time - q|) hm2
              refine ⟨?_, ?_, ?_, ?_⟩
              · intro mm h
                rcases I1 mm h with ⟨h1, h2, h3⟩
                refine ⟨h1, h2, ?_⟩
                rcases h3 with h3 | h3
                · exact Or.inl (List.mem_cons_of_mem _ h3)
                · left
                  rw [← h3]
                  exact List.mem_cons_self _ _
              · intro h
                rcases I4 |time - q| rfl with ⟨mm, hmm, _⟩
                rw [h] at hmm
                cases hmm
              · intro r hr
                rcases List.mem_cons.mp hr with hr | hr
                · subst hr
                  rcases I4 |time - r| rfl with ⟨mm, hmm, hle⟩
                  exact Or.inr ⟨mm, hmm, hle⟩
                · rcases I3 r hr with h | h
                  · exact Or.inl h
                  · exact Or.inr h
              · intro mmz h
                cases h
                rcases I4 |time - q| rfl with ⟨mm, hmm, hle⟩
                exact ⟨mm, hmm, le_trans hle (le_of_lt him)⟩
            · have hstep : snapStep time thr (a, some mm0) q = (a, some mm0) := by
                simp [snapStep, hthr]
              rw [hstep]
              obtain ⟨I1, I2, I3, I4⟩ := ih a (some mm0) hm
              refine ⟨?_, I2, ?_, I4⟩
              · intro mm h
                rcases I1 mm h with ⟨h1, h2, h3⟩
                refine ⟨h1, h2, ?_⟩
                rcases h3 with h3 | h3
                · exact Or.inl (List.mem_cons_of_mem _ h3)
                · exact Or.inr h3
              · intro r hr
                rcases List.mem_cons.mp hr with hr | hr
                · subst hr
                  exact Or.inl (not_lt.mp hthr)
                · rcases I3 r hr with h | h
                  · exact Or.inl h
                  · exact Or.inr h
          · have hstep : snapStep time thr (a, some mm0) q = (a, some mm0) := by
              simp [snapStep, him]
            rw [hstep]
            obtain ⟨I1, I2, I3, I4⟩ := ih a (some mm0) hm
            refine ⟨?_, I2, ?_, I4⟩
            · intro mm h
              rcases I1 mm h with ⟨h1, h2, h3⟩
              refine ⟨h1, h2, ?_⟩
              rcases h3 with h3 | h3
              · exact Or.inl (List.mem_cons_of_mem _ h3)
              · exact Or.inr h3
            · intro r hr
              rcases List.mem_cons.mp hr with hr | hr
              · subst hr
                rcases I4 mm0 rfl with ⟨mm, hmm, hle⟩
                exact Or.inr ⟨mm, hmm, le_trans hle (not_lt.mp him)⟩
              · rcases I3 r hr with h | h
                · exact Or.inl h
                · exact Or.inr h

/-- Two snap results agree when their components do. -/
theorem SnapResult_ext (r1 r2 : SnapResult) (h1 : r1.snapped = r2.snapped)
    (h2 : r1.didSnap = r2.didSnap) : r1 = r2 := by
  cases r1
  cases r2
  simp_all

/-- Snapping when some point is strictly within the threshold: the result
is snapped to a point of the set at globally minimal distance. -/
theorem snap_within (pps t : ℚ) (pts : List ℚ)
    (h : ∃ q ∈ pts, |t - q| < 10 / pps) :
    (snapToNearestPoint pps t pts false).didSnap = true ∧
    (snapToNearestPoint pps t pts false).snapped ∈ pts ∧
    ∀ q ∈ pts, |t - (snapToNearestPoint pps t pts false).snapped| ≤ |t - q| := by
  obtain ⟨q0, hq0, hq0thr⟩ := h
  obtain ⟨I1, I2, I3, _⟩ := snapStep_foldl_inv t (10 / pps) pts t none
    (by intro mm h; cases h)
  rw [snapToNearestPoint_eq]
  rcases hF : (pts.foldl (snapStep t (10 / pps)) (t, none)).2 with _ | mv
  · rcases I3 q0 hq0 with hthr | ⟨mm, hmm, _⟩
    · exact absurd hq0thr (not_lt.mpr hthr)
    · rw [hF] at hmm
      cases hmm
  · rcases I1 mv hF with ⟨hval, hlt, hmem⟩
    have hmem' : (pts.foldl (snapStep t (10 / pps)) (t, none)).1 ∈ pts := by
      rcases hmem with h | h
      · exact h
      · rw [← h] at hF
        cases hF
    refine ⟨by simp [hF, hlt], by simpa [hF] using hmem', ?_⟩
    intro q hq
    simp only [hF]
    rcases I3 q hq with hthr | ⟨mm, hmm, hle⟩
    · rw [← hval]
      exact le_trans (le_of_lt hlt) hthr
    · rw [hF] at hmm
      cases hmm
      rw [← hval]
      exact hle
/-- Snapping when no point is strictly within the threshold: the original
time is returned unsnapped. -/
theorem snap_miss (pps t : ℚ) (pts : List ℚ)
    (h : ∀ q ∈ pts, ¬ (|t - q| < 10 / pps)) :
    snapToNearestPoint pps t pts false = { snapped := t, didSnap := false } := by
  obtain ⟨I1, I2, I3, _⟩ := snapStep_foldl_inv t (10 / pps) pts t none
    (by intro mm hmm; cases hmm)
  rw [snapToNearestPoint_eq]
  rcases hF : (pts.foldl (snapStep t (10 / pps)) (t, none)).2 with _ | mv
  · have := I2 hF
    simp [this]
  · rcases I1 mv hF with ⟨hval, hlt, hmem⟩
    have hmem' : (pts.foldl (snapStep t (10 / pps)) (t, none)).1 ∈ pts := by
      rcases hmem with hmm | hmm
      · exact hmm
      · rw [← hmm] at hF
        cases hF
    exact absurd (hval ▸ hlt) (h _ hmem')

/-- C8: snapToNearestPoint returns the closest snap point when one lies
strictly within the threshold, returns the original time unsnapped
otherwise, and applying it twice with the same point set and threshold
yields the same result as applying it once, for any point set and positive
zoom (hence positive threshold). -/
theorem C8_snap_idempotent (pps t : ℚ) (pts : List ℚ) (hpps : 0 < pps) :
    ((∃ q ∈ pts, |t - q| < 10 / pps) →
       (snapToNearestPoint pps t pts false).didSnap = true ∧
       (snapToNearestPoint pps t pts false).snapped ∈ pts ∧
       ∀ q ∈ pts, |t - (snapToNearestPoint pps t pts false).snapped| ≤ |t - q|) ∧
    ((∀ q ∈ pts, ¬ (|t - q| < 10 / pps)) →
       snapToNearestPoint pps t pts false = { snapped := t, didSnap := false }) ∧
    snapToNearestPoint pps (snapToNearestPoint pps t pts false).snapped pts false
      = snapToNearestPoint pps t pts false := by
  refine ⟨snap_within pps t pts, snap_miss pps t pts, ?_⟩
  by_cases h : ∃ q ∈ pts, |t - q| < 10 / pps
  · obtain ⟨hsnap, hmem, hmin⟩ := snap_within pps t pts h
    have hthr0 : 0 < 10 / pps := by positivity
    have h2 : ∃ q ∈ pts, |(snapToNearestPoint pps t pts false).snapped - q| < 10 / pps :=
      ⟨(snapToNearestPoint pps t pts false).snapped, hmem, by simpa using hthr0⟩
    obtain ⟨hsnap2, _, hmin2⟩ := snap_within pps (snapToNearestPoint pps t pts false).snapped pts h2
    have heq : (snapToNearestPoint pps (snapToNearestPoint pps t pts false).snapped pts false).snapped
        = (snapToNearestPoint pps t pts false).snapped := by
      have h0 := hmin2 (snapToNearestPoint pps t pts false).snapped hmem
      simp only [sub_self, abs_zero] at h0
      have h1 := abs_nonneg ((snapToNearestPoint pps t pts false).snapped
        - (snapToNearestPoint pps (snapToNearestPoint pps t pts false).snapped pts false).snapped)
      have : |(snapToNearestPoint pps t pts false).snapped
          - (snapToNearestPoint pps (snapToNearestPoint pps t pts false).snapped pts false).snapped| = 0 :=
        le_antisymm h0 h1
      have := abs_eq_zero.mp this
      linarith [sub_eq_zero.mp this]
    exact SnapResult_ext _ _ heq (hsnap2.trans hsnap.symm)
  · push_neg at h
    have h' : ∀ q ∈ pts, ¬ (|t - q| < 10 / pps) := fun q hq => not_lt.mpr (h q hq)
    have hm := snap_miss pps t pts h'
    rw [hm]
    exact hm

end ReactFrame

namespace ReactFrame

/-- A lookup misses when no remaining track carries the old id. -/
theorem mapIdLookupAux_none (old : ℕ) :
    ∀ (l : List Track) (i : ℕ), (∀ t ∈ l, t.id ≠ old) → mapIdLookupAux i old l = none := by
  intro l
  induction l with
  | nil => intro i _; rfl
  | cons t ts ih =>
      intro i h
      have hts := ih (i + 1) (fun t' ht' => h t' (List.mem_cons_of_mem _ ht'))
      simp only [mapIdLookupAux, hts]
      rw [if_neg (h t (List.mem_cons_self _ _))]

/-- A successful lookup lands in the renumbered range. -/
theorem mapIdLookupAux_some_bounds (old : ℕ) :
    ∀ (l : List Track) (i k : ℕ), mapIdLookupAux i old l = some k →
      i ≤ k ∧ k < i + l.length := by
  intro l
  induction l with
  | nil => intro i k h; cases h
  | cons t ts ih =>
      intro i k h
      simp only [mapIdLookupAux] at h
      rcases hrec : mapIdLookupAux (i + 1) old ts with _ | r
      · rw [hrec] at h
        simp only at h
        by_cases hid : t.id = old
        · rw [if_pos hid] at h
          cases h
          simp only [List.length_cons]
          omega
        · rw [if_neg hid] at h
          cases h
      · rw [hrec] at h
        simp only [Option.some.injEq] at h
        subst h
        have := ih (i + 1) r hrec
        simp only [List.length_cons]
        omega

/-- The lookup succeeds when some remaining track carries the old id. -/
theorem mapIdLookupAux_isSome (old : ℕ) :
    ∀ (l : List Track) (i : ℕ), (∃ t ∈ l, t.id = old) →
      ∃ k, mapIdLookupAux i old l = some k := by
  intro l
  induction l with
  | nil =>
      intro i h
      obtain ⟨t, ht, _⟩ := h
      cases ht
  | cons t ts ih =>
      intro i h
      by_cases hts : ∃ t' ∈ ts, t'.id = old
      · obtain ⟨k, hk⟩ := ih (i + 1) hts
        exact ⟨k, by simp only [mapIdLookupAux, hk]⟩
      · have hid : t.id = old := by
          obtain ⟨t', ht', ht'id⟩ := h
          rcases List.mem_cons.mp ht' with rfl | hmem
          · exact ht'id
          · exact absurd ⟨t', hmem, ht'id⟩ hts
        have hnone : mapIdLookupAux (i + 1) old ts = none :=
          mapIdLookupAux_none old ts (i + 1)
            (fun t' ht' hcontra => hts ⟨t', ht', hcontra⟩)
        exact ⟨i, by simp only [mapIdLookupAux, hnone]; rw [if_pos hid]⟩

/-- Renumbering the sorted remaining tracks assigns exactly the ids 1..N. -/
theorem renumber_ids (l : List Track) :
    ((l.enum.map fun pr =>
        { pr.2 with id := pr.1 + 1, name := "Layer " ++ toString (pr.1 + 1) }).map Track.id)
      = List.range' 1 l.length := by
  rw [List.map_map]
  have h1 : (Track.id ∘ fun pr : ℕ × Track =>
      { pr.2 with id := pr.1 + 1, name := "Layer " ++ toString (pr.1 + 1) })
      = (fun x => x + 1) ∘ Prod.fst := rfl
  rw [h1, ← List.map_map, List.enum_map_fst, List.range'_eq_map_range]
  exact List.map_congr_left fun a _ => Nat.add_comm a 1

/-- C3: after deleting a track from a state with at least two tracks where
every element references an existing track, the elements of the deleted
track are removed and the others rewritten through the old-to-new id map,
the remaining tracks carry ids exactly 1..N with positional names, every
surviving element resolves to an existing track, the remaining tracks are
taken in ascending order of their old ids, and the selection is cleared. -/
theorem C3_delete_track (p : ProjectState) (tid : ℕ)
    (h2 : 2 ≤ p.tracks.length)
    (htid : ∀ el ∈ p.elements, el.trackId ∈ p.tracks.map Track.id) :
    (handleDeleteTrack p tid).tracks.map Track.id
        = List.range' 1 (p.tracks.filter fun t => t.id != tid).length ∧
    (∀ tr ∈ (handleDeleteTrack p tid).tracks, tr.name = "Layer " ++ toString tr.id) ∧
    ((handleDeleteTrack p tid).elements
        = (p.elements.filter fun el => el.trackId != tid).map fun el =>
            { el with trackId :=
                (mapIdLookup (sortTracksById (p.tracks.filter fun t => t.id != tid))
                  el.trackId).getD el.trackId }) ∧
    (∀ el ∈ (handleDeleteTrack p tid).elements,
        el.trackId ∈ (handleDeleteTrack p tid).tracks.map Track.id) ∧
    List.Sorted (· ≤ ·) ((sortTracksById (p.tracks.filter fun t => t.id != tid)).map Track.id) ∧
    (handleDeleteTrack p tid).selectedElementId = none := by
  have hne : ¬ (p.tracks.length ≤ 1) := by omega
  have hq : handleDeleteTrack p tid =
      { p with
        tracks := (sortTracksById (p.tracks.filter fun t => t.id != tid)).enum.map fun pr =>
          { pr.2 with id := pr.1 + 1, name := "Layer " ++ toString (pr.1 + 1) },
        elements := (p.elements.filter fun el => el.trackId != tid).map fun el =>
          { el with trackId :=
              (mapIdLookup (sortTracksById (p.tracks.filter fun t => t.id != tid))
                el.trackId).getD el.trackId },
        selectedElementId := none } := by
    rw [handleDeleteTrack, if_neg hne]
  have hlen : (sortTracksById (p.tracks.filter fun t => t.id != tid)).length
      = (p.tracks.filter fun t => t.id != tid).length :=
    (List.perm_insertionSort _ _).length_eq
  have hA : (handleDeleteTrack p tid).tracks.map Track.id
      = List.range' 1 (p.tracks.filter fun t => t.id != tid).length := by
    rw [hq]
    show ((sortTracksById (p.tracks.filter fun t => t.id != tid)).enum.map fun pr =>
      { pr.2 with id := pr.1 + 1, name := "Layer " ++ toString (pr.1 + 1) }).map Track.id = _
    rw [renumber_ids, hlen]
  refine ⟨hA, ?_, ?_, ?_, ?_, ?_⟩
  · intro tr htr
    rw [hq] at htr
    obtain ⟨pr, _, rfl⟩ := List.mem_map.mp htr
    rfl
  · rw [hq]
  · intro el hel
    rw [hA]
    rw [hq] at hel
    obtain ⟨el0, hel0, rfl⟩ := List.mem_map.mp hel
    obtain ⟨hmem0, hne0⟩ := List.mem_filter.mp hel0
    have hne0' : el0.trackId ≠ tid := by simpa using hne0
    obtain ⟨t, ht, htid_eq⟩ := List.mem_map.mp (htid el0 hmem0)
    have htf : t ∈ p.tracks.filter fun t => t.id != tid :=
      List.mem_filter.mpr ⟨ht, by simp [htid_eq, hne0']⟩
    have hts : t ∈ sortTracksById (p.tracks.filter fun t => t.id != tid) :=
      (List.mem_insertionSort _).mpr htf
    obtain ⟨k, hk⟩ := mapIdLookupAux_isSome el0.trackId _ 1 ⟨t, hts, htid_eq⟩
    obtain ⟨hk1, hk2⟩ := mapIdLookupAux_some_bounds el0.trackId _ 1 k hk
    show ((mapIdLookup (sortTracksById (p.tracks.filter fun t => t.id != tid))
        el0.trackId).getD el0.trackId) ∈ _
    rw [mapIdLookup, hk]
    simp only [Option.getD_some]
    rw [List.mem_range'_1]
    omega
  · rw [List.Sorted, List.pairwise_map]
    exact List.sorted_insertionSort _ _
  · rw [hq]

/-- C3 witness at the scenario: deleting track 2 of a four-track project
holding elements A and B on track 2 and C on track 3 removes A and B,
remaps C to track 2, leaves tracks 1..3 with positional names, and clears
the selection. -/
theorem C3_witness :
    (handleDeleteTrack C3state 2).tracks.map Track.id = [1, 2, 3] ∧
    (∀ tr ∈ (handleDeleteTrack C3state 2).tracks, tr.name = "Layer " ++ toString tr.id) ∧
    ((handleDeleteTrack C3state 2).elements = [{ C3element 3 3 with trackId := 2 }]) ∧
    (∀ el ∈ (handleDeleteTrack C3state 2).elements,
        el.trackId ∈ (handleDeleteTrack C3state 2).tracks.map Track.id) ∧
    List.Sorted (· ≤ ·) ((sortTracksById (C3state.tracks.filter fun t => t.id != 2)).map Track.id) ∧
    (handleDeleteTrack C3state 2).selectedElementId = none :=
  C3_delete_track C3state 2 (by decide) (by decide)

end ReactFrame

namespace ReactFrame

/-- Splice insertion is a permutation of pushing at the front. -/
theorem insertBeforeFirst_perm (pred : Track → Bool) (x : Track) :
    ∀ l : List Track, List.Perm (insertBeforeFirst pred x l) (x :: l) := by
  intro l
  induction l with
  | nil => exact List.Perm.refl _
  | cons t ts ih =>
      by_cases hp : pred t = true
      · rw [insertBeforeFirst, if_pos hp]
      · rw [insertBeforeFirst, if_neg hp]
        exact List.Perm.trans (List.Perm.cons t ih) (List.Perm.swap x t ts)

/-- Sorting the tracks is a permutation. -/
theorem sortTracksById_perm (ts : List Track) : List.Perm (sortTracksById ts) ts :=
  List.perm_insertionSort _ _

/-- C7: splitting audio from a video element inserts a new audio track with
id one past the video track (shifting every higher track and element up by
one and re-sorting), appends an audio element with the same timing carrying
the video volume and assetId, mutes the original video props, and selects
the new audio element; a missing or non-video element id is a no-op. -/
theorem C7_split_audio (p : ProjectState) (vid fid : ℕ) :
    (p.elements.find? (fun e => e.id == vid) = none → handleSplitAudio p vid fid = p) ∧
    (∀ el, p.elements.find? (fun e => e.id == vid) = some el → el.type ≠ ElementType.VIDEO →
        handleSplitAudio p vid fid = p) ∧
    (∀ el, p.elements.find? (fun e => e.id == vid) = some el → el.type = ElementType.VIDEO →
      (handleSplitAudio p vid fid).selectedElementId = some fid ∧
      (∃ a, (handleSplitAudio p vid fid).elements.getLast? = some a ∧
         a.id = fid ∧ a.type = ElementType.Audio ∧ a.trackId = el.trackId + 1 ∧
         a.startTime = el.startTime ∧ a.duration = el.duration ∧
         a.mediaOffset = el.mediaOffset ∧
         a.props.volume = some (el.props.volume.getD 1) ∧
         a.props.isMuted = some false ∧ a.props.src = el.props.src ∧
         a.assetId = el.assetId) ∧
      (∃ v ∈ (handleSplitAudio p vid fid).elements, v.id = el.id ∧
         v.trackId = el.trackId ∧ v.startTime = el.startTime ∧ v.duration = el.duration ∧
         v.mediaOffset = el.mediaOffset ∧ v.props = { el.props with isMuted := some true }) ∧
      (∀ e ∈ p.elements, e.id ≠ vid →
        (if el.trackId < e.trackId then { e with trackId := e.trackId + 1 } else e)
          ∈ (handleSplitAudio p vid fid).elements) ∧
      (mkTrack (el.trackId + 1) ("Layer " ++ toString (p.tracks.length + 1)) .audio
          ∈ (handleSplitAudio p vid fid).tracks) ∧
      (∀ t ∈ p.tracks,
        (if el.trackId < t.id then { t with id := t.id + 1 } else t)
          ∈ (handleSplitAudio p vid fid).tracks) ∧
      (handleSplitAudio p vid fid).tracks.length = p.tracks.length + 1 ∧
      List.Pairwise (fun a b : Track => a.id ≤ b.id) (handleSplitAudio p vid fid).tracks) := by
  refine ⟨?_, ?_, ?_⟩
  · intro h
    simp only [handleSplitAudio, h]
  · intro el h hnv
    simp only [handleSplitAudio, h]
    rw [if_pos hnv]
  · intro el h hv
    have hnv' : ¬ (el.type ≠ ElementType.VIDEO) := fun hh => hh hv
    have helmem : el ∈ p.elements := List.mem_of_find?_eq_some h
    have heid : el.id = vid := by simpa using List.find?_some h
    simp only [handleSplitAudio, h]
    rw [if_neg hnv']
    refine ⟨rfl, ?_, ?_, ?_, ?_, ?_, ?_, ?_⟩
    · rw [List.getLast?_concat]
      exact ⟨_, rfl, rfl, rfl, rfl, rfl, rfl, rfl, rfl, rfl, rfl, rfl⟩
    · refine ⟨{ el with props := { el.props with isMuted := some true } }, ?_,
        rfl, rfl, rfl, rfl, rfl, rfl⟩
      apply List.mem_append_left
      refine List.mem_map.mpr ⟨el, ?_, ?_⟩
      · exact List.mem_map.mpr ⟨el, helmem, by rw [if_neg (lt_irrefl el.trackId)]⟩
      · rw [if_pos heid]
    · intro e he hne
      apply List.mem_append_left
      refine List.mem_map.mpr ⟨(if el.trackId < e.trackId then { e with trackId := e.trackId + 1 } else e),
        List.mem_map.mpr ⟨e, he, rfl⟩, ?_⟩
      have hid : (if el.trackId < e.trackId then { e with trackId := e.trackId + 1 } else e).id = e.id := by
        split <;> rfl
      rw [if_neg (by rw [hid]; exact hne)]
    · apply (List.mem_insertionSort _).mpr
      apply (insertBeforeFirst_perm _ _ _).mem_iff.mpr
      exact List.mem_cons_self _ _
    · intro t ht
      apply (List.mem_insertionSort _).mpr
      apply (insertBeforeFirst_perm _ _ _).mem_iff.mpr
      exact List.mem_cons_of_mem _ (List.mem_map.mpr ⟨t, ht, rfl⟩)
    · exact (sortTracksById_perm _).length_eq.trans
        ((insertBeforeFirst_perm _ _ _).length_eq.trans (by simp))
    · exact List.sorted_insertionSort _ _

/-- C7 witness at the scenario: the video of id 50 on track 2 spanning 3 to
13 with volume 0.8; after split-audio the appended audio element sits on
track 3 with the same interval and volume, the inserted audio track has id
3, old higher tracks are shifted up, the video is muted, and the audio
element is selected. -/
theorem C7_witness :
    (handleSplitAudio C7state 50 60).selectedElementId = some 60 ∧
    (∃ a, (handleSplitAudio C7state 50 60).elements.getLast? = some a ∧
       a.id = 60 ∧ a.type = ElementType.Audio ∧ a.trackId = 3 ∧
       a.startTime = 3 ∧ a.duration = 10 ∧ a.mediaOffset = 0 ∧
       a.props.volume = some (4/5) ∧ a.props.isMuted = some false ∧
       a.props.src = some "v" ∧ a.assetId = none) ∧
    (∃ v ∈ (handleSplitAudio C7state 50 60).elements, v.id = 50 ∧
       v.trackId = 2 ∧ v.startTime = 3 ∧ v.duration = 10 ∧ v.mediaOffset = 0 ∧
       v.props = { src := some "v", volume := some (4/5), isMuted := some true }) ∧
    (∀ e ∈ C7state.elements, e.id ≠ 50 →
      (if 2 < e.trackId then { e with trackId := e.trackId + 1 } else e)
        ∈ (handleSplitAudio C7state 50 60).elements) ∧
    (mkTrack 3 ("Layer " ++ toString 5) .audio ∈ (handleSplitAudio C7state 50 60).tracks) ∧
    (∀ t ∈ C7state.tracks,
      (if 2 < t.id then { t with id := t.id + 1 } else t)
        ∈ (handleSplitAudio C7state 50 60).tracks) ∧
    (handleSplitAudio C7state 50 60).tracks.length = 5 ∧
    List.Pairwise (fun a b : Track => a.id ≤ b.id) (handleSplitAudio C7state 50 60).tracks :=
  (C7_split_audio C7state 50 60).2.2 C7video rfl rfl

end ReactFrame

namespace ReactFrame

/-- C8 witness: snapping the time 7 against points 0 and 5 at zoom 50 is
idempotent. -/
theorem C8_witness :
    snapToNearestPoint 50 (snapToNearestPoint 50 7 [0, 5] false).snapped [0, 5] false
      = snapToNearestPoint 50 7 [0, 5] false :=
  (C8_snap_idempotent 50 7 [0, 5] (by decide)).2.2

end ReactFrame

namespace ReactFrame

/-- Replacing by id skips a prefix that does not carry the id. -/
theorem setFirstById_append (i : ℕ) (r : EditorElement) :
    ∀ (pre l : List EditorElement), (∀ a ∈ pre, a.id ≠ i) →
      setFirstById i r (pre ++ l) = pre ++ setFirstById i r l := by
  intro pre
  induction pre with
  | nil => intro l _; rfl
  | cons a pre ih =>
      intro l h
      rw [List.cons_append, setFirstById, if_neg (h a (List.mem_cons_self _ _)),
        ih l (fun b hb => h b (List.mem_cons_of_mem _ hb)), List.cons_append]

/-- Replacing by id hits a matching head. -/
theorem setFirstById_cons_eq (i : ℕ) (r el : EditorElement) (l : List EditorElement)
    (h : el.id = i) : setFirstById i r (el :: l) = r :: l := by
  rw [setFirstById, if_pos h]

/-- Characterization of the handleSplit forEach loop: processing the
remaining elements of the working array turns each eligible one into its
left piece in place and pushes the right pieces at the end in order, sets
the modified flag when any was eligible, and advances the fresh id counter
by the number of splits. -/
theorem splitFold_spec (T : ℚ) (sel : Option ℕ) (gen : ℕ → ℕ) :
    ∀ (rest pre post : List EditorElement) (k : ℕ) (b : Bool),
      (∀ a ∈ pre, ∀ c ∈ rest, a.id ≠ c.id) →
      ((rest.map EditorElement.id).Nodup) →
      rest.foldl (splitStep T sel gen) (pre ++ rest ++ post, b, k) =
        (pre ++ (rest.map fun el => if splitEligible T sel el then splitLeft T el else el)
             ++ post
             ++ (((rest.filter (splitEligible T sel)).enumFrom k).map
                  fun pr => splitRight T (gen pr.1) pr.2),
         b || rest.any (splitEligible T sel),
         k + (rest.filter (splitEligible T sel)).length) := by
  intro rest
  induction rest with
  | nil =>
      intro pre post k b _ _
      simp
  | cons el rest ih =>
      intro pre post k b hdisj hnd
      rw [List.foldl_cons]
      have hnd2 : (∀ x ∈ rest, ¬ x.id = el.id) ∧ (rest.map EditorElement.id).Nodup := by
        simpa using hnd
      have hndrest := hnd2.2
      have hidne : ∀ c ∈ rest, el.id ≠ c.id := fun c hc h => hnd2.1 c hc h.symm
      by_cases he : splitEligible T sel el = true
      · have hpre : ∀ a ∈ pre, a.id ≠ el.id :=
          fun a ha => hdisj a ha el (List.mem_cons_self _ _)
        have hstep : splitStep T sel gen (pre ++ (el :: rest) ++ post, b, k) el =
            ((pre ++ [splitLeft T el]) ++ rest ++ (post ++ [splitRight T (gen k) el]),
              true, k + 1) := by
          simp only [splitStep, he, if_true]
          refine congrArg (fun l => (l, true, k + 1)) ?_
          rw [List.append_assoc, setFirstById_append el.id (splitLeft T el) pre _ hpre,
            List.cons_append, setFirstById_cons_eq el.id (splitLeft T el) el _ rfl]
          simp [List.append_assoc]
        rw [hstep]
        have hdisj2 : ∀ a ∈ pre ++ [splitLeft T el], ∀ c ∈ rest, a.id ≠ c.id := by
          intro a ha c hc
          rcases List.mem_append.mp ha with ha | ha
          · exact hdisj a ha c (List.mem_cons_of_mem _ hc)
          · rcases List.mem_singleton.mp ha with rfl
            exact hidne c hc
        rw [ih (pre ++ [splitLeft T el]) (post ++ [splitRight T (gen k) el]) (k + 1) true
          hdisj2 hndrest]
        refine congrArg₂ (fun l pr => (l, pr)) ?_ (congrArg₂ (fun x y => (x, y)) ?_ ?_)
        · rw [List.map_cons, if_pos he, List.filter_cons_of_pos he]
          rw [show ((el :: rest.filter (splitEligible T sel)).enumFrom k)
              = (k, el) :: ((rest.filter (splitEligible T sel)).enumFrom (k + 1)) from rfl]
          rw [List.map_cons]
          simp [List.append_assoc]
        · simp [he]
        · rw [List.filter_cons_of_pos he]
          simp only [List.length_cons]
          omega
      · have heb : splitEligible T sel el = false := by
          simpa using he
        have hstep : splitStep T sel gen (pre ++ (el :: rest) ++ post, b, k) el =
            ((pre ++ [el]) ++ rest ++ post, b, k) := by
          simp only [splitStep, heb]
          simp [List.append_assoc]
        rw [hstep]
        have hdisj2 : ∀ a ∈ pre ++ [el], ∀ c ∈ rest, a.id ≠ c.id := by
          intro a ha c hc
          rcases List.mem_append.mp ha with ha | ha
          · exact hdisj a ha c (List.mem_cons_of_mem _ hc)
          · rcases List.mem_singleton.mp ha with rfl
            exact hidne c hc
        rw [ih (pre ++ [el]) post k b hdisj2 hndrest]
        refine congrArg₂ (fun l pr => (l, pr)) ?_ (congrArg₂ (fun x y => (x, y)) ?_ ?_)
        · rw [List.map_cons, if_neg (by simp [heb]), List.filter_cons_of_neg (by simp [heb])]
          simp [List.append_assoc]
        · simp [heb]
        · rw [List.filter_cons_of_neg (by simp [heb])]

end ReactFrame

namespace ReactFrame

/-- C2: splitting at the playhead replaces every eligible straddling
element (all straddlers, or just the selected one when a selection exists)
by its left piece in place and appends the right pieces with fresh ids in
order, clearing the selection; when nothing is eligible the state is
unchanged. The pieces satisfy the split arithmetic: durations sum to the
original, media offsets are contiguous, the right part starts at the split
time with a Copy name suffix, and the left part keeps start, offset and
id. -/
theorem C2_split (p : ProjectState) (gen : ℕ → ℕ)
    (hnd : (p.elements.map EditorElement.id).Nodup) :
    (handleSplit p gen =
      if p.elements.any (splitEligible p.currentTime p.selectedElementId) then
        { p with
          elements :=
            (p.elements.map fun el =>
              if splitEligible p.currentTime p.selectedElementId el then
                splitLeft p.currentTime el else el)
            ++ (((p.elements.filter
                  (splitEligible p.currentTime p.selectedElementId)).enumFrom 0).map
                fun pr => splitRight p.currentTime (gen pr.1) pr.2),
          selectedElementId := none }
      else p) ∧
    (∀ (el : EditorElement) (n : ℕ),
      (splitLeft p.currentTime el).duration + (splitRight p.currentTime n el).duration
          = el.duration ∧
      (splitRight p.currentTime n el).mediaOffset
          = (splitLeft p.currentTime el).mediaOffset + (splitLeft p.currentTime el).duration ∧
      (splitRight p.currentTime n el).startTime = p.currentTime ∧
      (splitRight p.currentTime n el).id = n ∧
      (splitRight p.currentTime n el).name = el.name ++ " (Copy)" ∧
      (splitLeft p.currentTime el).startTime = el.startTime ∧
      (splitLeft p.currentTime el).mediaOffset = el.mediaOffset ∧
      (splitLeft p.currentTime el).id = el.id ∧
      (splitLeft p.currentTime el).duration = p.currentTime - el.startTime) := by
  constructor
  · have hfold := splitFold_spec p.currentTime p.selectedElementId gen p.elements [] [] 0 false
      (fun a ha => absurd ha (List.not_mem_nil a)) hnd
    simp only [List.nil_append, List.append_nil, Bool.false_or] at hfold
    simp only [handleSplit, hfold]
  · intro el n
    refine ⟨?_, ?_, rfl, rfl, rfl, rfl, rfl, rfl, rfl⟩
    · show (p.currentTime - el.startTime)
          + (el.duration - (p.currentTime - el.startTime)) = el.duration
      ring
    · show el.mediaOffset + (p.currentTime - el.startTime)
          = el.mediaOffset + (p.currentTime - el.startTime)
      rfl

/-- C2 witness at the concrete scenario: playhead 4 over a single element
spanning 0 to 10, with no selection and a deterministic id source. -/
theorem C2_split_witness :
    (handleSplit C2state C2gen =
      if C2state.elements.any (splitEligible C2state.currentTime C2state.selectedElementId) then
        { C2state with
          elements :=
            (C2state.elements.map fun el =>
              if splitEligible C2state.currentTime C2state.selectedElementId el then
                splitLeft C2state.currentTime el else el)
            ++ (((C2state.elements.filter
                  (splitEligible C2state.currentTime C2state.selectedElementId)).enumFrom 0).map
                fun pr => splitRight C2state.currentTime (C2gen pr.1) pr.2),
          selectedElementId := none }
      else C2state) ∧
    (∀ (el : EditorElement) (n : ℕ),
      (splitLeft C2state.currentTime el).duration + (splitRight C2state.currentTime n el).duration
          = el.duration ∧
      (splitRight C2state.currentTime n el).mediaOffset
          = (splitLeft C2state.currentTime el).mediaOffset
            + (splitLeft C2state.currentTime el).duration ∧
      (splitRight C2state.currentTime n el).startTime = C2state.currentTime ∧
      (splitRight C2state.currentTime n el).id = n ∧
      (splitRight C2state.currentTime n el).name = el.name ++ " (Copy)" ∧
      (splitLeft C2state.currentTime el).startTime = el.startTime ∧
      (splitLeft C2state.currentTime el).mediaOffset = el.mediaOffset ∧
      (splitLeft C2state.currentTime el).id = el.id ∧
      (splitLeft C2state.currentTime el).duration = C2state.currentTime - el.startTime) :=
  C2_split C2state C2gen (by decide)

end ReactFrame

namespace ReactFrame

/-- The seed of a running maximum bounds the result. -/
theorem foldl_max_le_self : ∀ (l : List ℕ) (a : ℕ), a ≤ l.foldl Nat.max a := by
  intro l
  induction l with
  | nil => intro a; exact le_refl a
  | cons c l ih =>
      intro a
      exact le_trans (Nat.le_max_left a c) (ih (Nat.max a c))

/-- Every member bounds into the running maximum. -/
theorem le_foldl_max_of_mem : ∀ (l : List ℕ) (a x : ℕ), x ∈ l → x ≤ l.foldl Nat.max a := by
  intro l
  induction l with
  | nil => intro a x hx; cases hx
  | cons c l ih =>
      intro a x hx
      rcases List.mem_cons.mp hx with rfl | hx
      · exact le_trans (Nat.le_max_right a x) (foldl_max_le_self l (Nat.max a x))
      · exact ih (Nat.max a c) x hx

/-- A synthesized track id is strictly larger than every existing id. -/
theorem track_id_lt_newTrackIdOf (ts : List Track) (t : Track) (ht : t ∈ ts) :
    t.id < newTrackIdOf ts := by
  cases ts with
  | nil => cases ht
  | cons t0 ts0 =>
      show t.id < if (t0 :: ts0).isEmpty then 0 else _
      rw [if_neg (by simp)]
      have : t.id ≤ ((t0 :: ts0).map Track.id).foldl Nat.max 0 :=
        le_foldl_max_of_mem _ 0 t.id (List.mem_map_of_mem _ ht)
      omega

/-- A free track really has no overlapping element on it. -/
theorem not_overlap_of_free (els : List EditorElement) (tid : ℕ) (s e : ℚ)
    (h : trackHasOverlap els tid s e = false) :
    ∀ el ∈ els, el.trackId = tid →
      ¬ (el.startTime < e ∧ s < el.startTime + el.duration) := by
  intro el hel htr hcon
  rw [trackHasOverlap, List.any_eq_false] at h
  apply h el hel
  simp [htr, hcon.1, hcon.2]

/-- A successful sequential search over an id-sorted track list returns a
free track id carried by some track, and every track of smaller id has an
overlap. -/
theorem findFreeTrack_sorted_spec (els : List EditorElement) (s e : ℚ) :
    ∀ (l : List Track), List.Pairwise (fun a b : Track => a.id ≤ b.id) l →
      ∀ tid, findFreeTrack els s e l = some tid →
        trackHasOverlap els tid s e = false ∧ (∃ t ∈ l, t.id = tid) ∧
        (∀ t ∈ l, t.id < tid → trackHasOverlap els t.id s e = true) := by
  intro l
  induction l with
  | nil => intro _ tid h; cases h
  | cons tr rest ih =>
      intro hsorted tid h
      have hsorted' := List.pairwise_cons.mp hsorted
      by_cases hb : trackHasOverlap els tr.id s e = true
      · rw [findFreeTrack, if_pos hb] at h
        obtain ⟨hfree, ⟨t, ht, htid⟩, hbelow⟩ := ih hsorted'.2 tid h
        refine ⟨hfree, ⟨t, List.mem_cons_of_mem _ ht, htid⟩, ?_⟩
        intro t' ht' hlt
        rcases List.mem_cons.mp ht' with rfl | ht'
        · exact hb
        · exact hbelow t' ht' hlt
      · rw [findFreeTrack, if_neg hb] at h
        cases h
        refine ⟨by simpa using hb, ⟨tr, List.mem_cons_self _ _, rfl⟩, ?_⟩
        intro t' ht' hlt
        rcases List.mem_cons.mp ht' with rfl | ht'
        · exact absurd hlt (lt_irrefl _)
        · exact absurd hlt (not_lt.mpr (hsorted'.1 t' ht'))

/-- A failed sequential search means every listed track has an overlap. -/
theorem findFreeTrack_none (els : List EditorElement) (s e : ℚ) :
    ∀ (l : List Track), findFreeTrack els s e l = none →
      ∀ t ∈ l, trackHasOverlap els t.id s e = true := by
  intro l
  induction l with
  | nil => intro _ t ht; cases ht
  | cons tr rest ih =>
      intro h t ht
      by_cases hb : trackHasOverlap els tr.id s e = true
      · rw [findFreeTrack, if_pos hb] at h
        rcases List.mem_cons.mp ht with rfl | ht
        · exact hb
        · exact ih h t ht
      · rw [findFreeTrack, if_neg hb] at h
        cases h

end ReactFrame

namespace ReactFrame

/-- Shape of an automatic placement that found a free track: the tracks are
untouched and the new element is appended on that track. -/
theorem autoAdd_eq_some (p : ProjectState) (r : PlacementReq) (tid : ℕ)
    (hfind : findFreeTrack p.elements p.currentTime (autoPlaceWindowEnd p r)
      (sortTracksById p.tracks) = some tid) :
    autoAdd p r = { p with elements := p.elements ++ [autoNewElement p r tid],
                           selectedElementId := some r.freshId } := by
  simp only [autoPlaceWindowEnd] at hfind
  simp only [autoAdd, handleAddElement, Option.getD_none, hfind, autoNewElement]

/-- Shape of an automatic placement that found no free track: a new track
with id one past the maximum is appended and the new element lands on it. -/
theorem autoAdd_eq_none (p : ProjectState) (r : PlacementReq)
    (hfind : findFreeTrack p.elements p.currentTime (autoPlaceWindowEnd p r)
      (sortTracksById p.tracks) = none) :
    autoAdd p r = { p with
      tracks := p.tracks ++
        [mkTrack (newTrackIdOf p.tracks)
          ("Layer " ++ toString (newTrackIdOf p.tracks + 1)) .overlay],
      elements := p.elements ++ [autoNewElement p r (newTrackIdOf p.tracks)],
      selectedElementId := some r.freshId } := by
  simp only [autoPlaceWindowEnd] at hfind
  simp only [autoAdd, handleAddElement, Option.getD_none, hfind, autoNewElement]

/-- One automatic placement preserves track references and the no-overlap
invariant. -/
theorem autoAdd_preserves (p : ProjectState) (r : PlacementReq)
    (hwf : TracksWF p) (hinv : NoOverlap p) :
    TracksWF (autoAdd p r) ∧ NoOverlap (autoAdd p r) := by
  rcases hfind : findFreeTrack p.elements p.currentTime (autoPlaceWindowEnd p r)
      (sortTracksById p.tracks) with _ | tid
  · rw [autoAdd_eq_none p r hfind]
    constructor
    · intro el hel
      rcases List.mem_append.mp hel with hel | hel
      · obtain ⟨t, ht, htid⟩ := List.mem_map.mp (hwf el hel)
        exact List.mem_map.mpr ⟨t, List.mem_append_left _ ht, htid⟩
      · rcases List.mem_singleton.mp hel with rfl
        exact List.mem_map.mpr
          ⟨mkTrack (newTrackIdOf p.tracks)
            ("Layer " ++ toString (newTrackIdOf p.tracks + 1)) .overlay,
           List.mem_append_right _ (List.mem_singleton_self _), rfl⟩
    · show List.Pairwise _ (p.elements ++ [autoNewElement p r (newTrackIdOf p.tracks)])
      rw [List.pairwise_append]
      refine ⟨hinv, List.pairwise_singleton _ _, ?_⟩
      intro a ha b hb
      rcases List.mem_singleton.mp hb with rfl
      intro hover
      obtain ⟨t, ht, htid⟩ := List.mem_map.mp (hwf a ha)
      have hlt : t.id < newTrackIdOf p.tracks := track_id_lt_newTrackIdOf p.tracks t ht
      have : a.trackId = newTrackIdOf p.tracks := hover.1
      omega
  · rw [autoAdd_eq_some p r tid hfind]
    have hspec := findFreeTrack_sorted_spec p.elements p.currentTime (autoPlaceWindowEnd p r)
      (sortTracksById p.tracks) (List.sorted_insertionSort _ _) tid hfind
    constructor
    · intro el hel
      rcases List.mem_append.mp hel with hel | hel
      · exact hwf el hel
      · rcases List.mem_singleton.mp hel with rfl
        obtain ⟨t, ht, htid⟩ := hspec.2.1
        exact List.mem_map.mpr ⟨t, (List.mem_insertionSort _).mp ht, htid⟩
    · show List.Pairwise _ (p.elements ++ [autoNewElement p r tid])
      rw [List.pairwise_append]
      refine ⟨hinv, List.pairwise_singleton _ _, ?_⟩
      intro a ha b hb
      rcases List.mem_singleton.mp hb with rfl
      intro hover
      exact not_overlap_of_free p.elements tid p.currentTime (autoPlaceWindowEnd p r)
        hspec.1 a ha hover.1 ⟨hover.2.1, hover.2.2⟩

/-- Any sequence of automatic placements preserves both invariants. -/
theorem autoAdd_fold (reqs : List PlacementReq) :
    ∀ p, TracksWF p → NoOverlap p →
      TracksWF (reqs.foldl autoAdd p) ∧ NoOverlap (reqs.foldl autoAdd p) := by
  induction reqs with
  | nil => intro p hwf hinv; exact ⟨hwf, hinv⟩
  | cons r reqs ih =>
      intro p hwf hinv
      rw [List.foldl_cons]
      obtain ⟨hwf2, hinv2⟩ := autoAdd_preserves p r hwf hinv
      exact ih _ hwf2 hinv2

/-- C1: an automatic placement lands on the first free track in ascending
id order, appending a brand-new track of maximal id plus one only when
every existing track overlaps the candidate window; consequently no
sequence of automatic placements ever produces two elements on one track
with overlapping intervals. -/
theorem C1_auto_placement (p : ProjectState) (r : PlacementReq) (reqs : List PlacementReq)
    (hwf : TracksWF p) (hinv : NoOverlap p) :
    (∀ tid, findFreeTrack p.elements p.currentTime (autoPlaceWindowEnd p r)
        (sortTracksById p.tracks) = some tid →
      (autoAdd p r).tracks = p.tracks ∧
      (∃ a, (autoAdd p r).elements.getLast? = some a ∧ a.trackId = tid ∧
        a.id = r.freshId ∧ a.startTime = p.currentTime ∧
        a.duration = (addDefaults r.type r.isDarkMode r.custom).duration) ∧
      trackHasOverlap p.elements tid p.currentTime (autoPlaceWindowEnd p r) = false ∧
      (∃ t ∈ p.tracks, t.id = tid) ∧
      (∀ t ∈ p.tracks, t.id < tid →
        trackHasOverlap p.elements t.id p.currentTime (autoPlaceWindowEnd p r) = true)) ∧
    (findFreeTrack p.elements p.currentTime (autoPlaceWindowEnd p r)
        (sortTracksById p.tracks) = none →
      (∀ t ∈ p.tracks,
        trackHasOverlap p.elements t.id p.currentTime (autoPlaceWindowEnd p r) = true) ∧
      (autoAdd p r).tracks = p.tracks ++
        [mkTrack (newTrackIdOf p.tracks)
          ("Layer " ++ toString (newTrackIdOf p.tracks + 1)) .overlay] ∧
      (∃ a, (autoAdd p r).elements.getLast? = some a ∧
        a.trackId = newTrackIdOf p.tracks ∧ a.id = r.freshId)) ∧
    TracksWF (reqs.foldl autoAdd p) ∧ NoOverlap (reqs.foldl autoAdd p) := by
  refine ⟨?_, ?_, autoAdd_fold reqs p hwf hinv⟩
  · intro tid hfind
    have hspec := findFreeTrack_sorted_spec p.elements p.currentTime (autoPlaceWindowEnd p r)
      (sortTracksById p.tracks) (List.sorted_insertionSort _ _) tid hfind
    refine ⟨?_, ?_, hspec.1, ?_, ?_⟩
    · rw [autoAdd_eq_some p r tid hfind]
    · rw [autoAdd_eq_some p r tid hfind]
      refine ⟨autoNewElement p r tid, ?_, rfl, rfl, rfl, rfl⟩
      show (p.elements ++ [autoNewElement p r tid]).getLast? = _
      rw [List.getLast?_concat]
    · obtain ⟨t, ht, htid⟩ := hspec.2.1
      exact ⟨t, (List.mem_insertionSort _).mp ht, htid⟩
    · intro t ht hlt
      exact hspec.2.2 t ((List.mem_insertionSort _).mpr ht) hlt
  · intro hfind
    refine ⟨?_, ?_, ?_⟩
    · intro t ht
      exact findFreeTrack_none p.elements p.currentTime (autoPlaceWindowEnd p r)
        (sortTracksById p.tracks) hfind t ((List.mem_insertionSort _).mpr ht)
    · rw [autoAdd_eq_none p r hfind]
    · rw [autoAdd_eq_none p r hfind]
      refine ⟨autoNewElement p r (newTrackIdOf p.tracks), ?_, rfl, rfl⟩
      show (p.elements ++ [autoNewElement p r (newTrackIdOf p.tracks)]).getLast? = _
      rw [List.getLast?_concat]

end ReactFrame

namespace ReactFrame

/-- C1 witness at the scenario: five tracks with track 0 occupied on 0 to
10; automatically placing a five-second text element at playhead 0 keeps
the five tracks (no sixth track) and lands the new element on track 1, the
first free id, with every smaller id overlapped. -/
theorem C1_witness :
    (autoAdd C1state C1req).tracks = C1state.tracks ∧
    (∃ a, (autoAdd C1state C1req).elements.getLast? = some a ∧ a.trackId = 1 ∧
      a.id = 7 ∧ a.startTime = C1state.currentTime ∧
      a.duration = (addDefaults C1req.type C1req.isDarkMode C1req.custom).duration) ∧
    trackHasOverlap C1state.elements 1 C1state.currentTime
      (autoPlaceWindowEnd C1state C1req) = false ∧
    (∃ t ∈ C1state.tracks, t.id = 1) ∧
    (∀ t ∈ C1state.tracks, t.id < 1 →
      trackHasOverlap C1state.elements t.id C1state.currentTime
        (autoPlaceWindowEnd C1state C1req) = true) :=
  (C1_auto_placement C1state C1req [] (by unfold TracksWF; decide)
    (by simp [NoOverlap, C1state, emptyProject])).1 1
    (by norm_num [findFreeTrack, trackHasOverlap, sortTracksById, List.insertionSort,
      List.orderedInsert, C1state, C1req, emptyProject, mkTrack, baseElement,
      autoPlaceWindowEnd, addDefaults])

end ReactFrame
